import Mathlib

/-!
Verification of the Montezuma chess engine core against its specification.

The development shallowly embeds the relevant source files:
  - src/src/thc.cpp      : board state, PushMove, PopMove, castling bookkeeping
  - src/src/hashing.cpp  : zobristHash64Calculate, zobristHash64Update
  - src/src/engine.cpp   : probeHash, recordHash, evaluate, alphaBeta frame,
                           retrievePvLineFromTable, inputGo bestmove emission,
                           protocolLoop table initialization
  - src/src/book.cpp     : endian swaps, listMoves, getMove

Machine integers are embedded as Nat (all hash values stay below 2 to the 64,
since they arise from XORs of 64-bit constants).  The headers thc.h and
hashing.h are not part of the source tree; the entities they define
(piece constants, the Random64 table, the castling predicates, the groomed
en-passant query, the hashEntry layout) are modelled from the specification
and from their uses in thc.cpp and engine.cpp, and are marked as such.
-/

namespace Montezuma

/-- Special move tag from thc.h, as used by thc.cpp and hashing.cpp.
The constructor set is the closed set listed in the specification. -/
inductive Special where
  | notSpecial
  | kingMove
  | wkCastling
  | bkCastling
  | wqCastling
  | bqCastling
  | promotionQueen
  | promotionRook
  | promotionBishop
  | promotionKnight
  | wEnPassant
  | bEnPassant
  | wPawn2Squares
  | bPawn2Squares
deriving DecidableEq, Repr

/-- Move as in thc.h: source square, destination square, captured piece
character (a space when nothing is captured) and the special tag.
Squares use the thc convention a8 = 0, b8 = 1, ..., h1 = 63;
the value 64 is SQUARE_INVALID. -/
structure Move where
  src : Nat
  dst : Nat
  capture : Char
  special : Special
deriving DecidableEq, Repr

/-- SQUARE_INVALID of thc.h (one past the last real square). -/
def SQUARE_INVALID : Nat := 64

/-- DETAIL of thc.cpp: the en-passant target, both king squares and the four
castling flags, saved and restored wholesale by DETAIL_PUSH / DETAIL_POP. -/
structure Detail where
  ep : Nat
  wkingSq : Nat
  bkingSq : Nat
  wking : Bool
  wqueen : Bool
  bking : Bool
  bqueen : Bool
deriving DecidableEq, Repr

/-- Board state of thc::ChessRules relevant to hashing and push/pop:
the 64 squares (characters, space = empty), side to move, the DETAIL
fields, and the detail stack written by DETAIL_PUSH and read by DETAIL_POP. -/
structure Board where
  squares : List Char
  white : Bool
  ep : Nat
  wkingSq : Nat
  bkingSq : Nat
  wking : Bool
  wqueen : Bool
  bking : Bool
  bqueen : Bool
  detailStack : List Detail
deriving DecidableEq, Repr

/-- Character sitting on square i (thc reads squares[i]). -/
def sqAt (b : Board) (i : Nat) : Char := b.squares.getD i ' '

/-- DETAIL snapshot of the current board, as pushed by DETAIL_PUSH. -/
def detailOf (b : Board) : Detail :=
  ⟨b.ep, b.wkingSq, b.bkingSq, b.wking, b.wqueen, b.bking, b.bqueen⟩

/-- Restore a DETAIL snapshot into the board, as done by DETAIL_POP. -/
def restoreDetail (b : Board) (d : Detail) : Board :=
  { b with ep := d.ep, wkingSq := d.wkingSq, bkingSq := d.bkingSq,
           wking := d.wking, wqueen := d.wqueen, bking := d.bking, bqueen := d.bqueen }

/-- DETAIL_CASTLING(sq) of thc.cpp: clear the castling flags listed in
castling_prohibited_table for the given square (a8 = 0, e8 = 4, h8 = 7,
a1 = 56, e1 = 60, h1 = 63); all other squares clear nothing. -/
def clearCastlingFlags (b : Board) (s : Nat) : Board :=
  if s = 0 then { b with bqueen := false }
  else if s = 4 then { b with bqueen := false, bking := false }
  else if s = 7 then { b with bking := false }
  else if s = 56 then { b with wqueen := false }
  else if s = 60 then { b with wqueen := false, wking := false }
  else if s = 63 then { b with wking := false }
  else b

/-- PushMove of thc.cpp: push the DETAIL snapshot, clear castling flags for
the destination square, reset the en-passant target, mutate the squares
according to the special tag, and toggle the side to move. -/
def PushMove (b : Board) (m : Move) : Board :=
  let b1 : Board := { b with detailStack := detailOf b :: b.detailStack }
  let b2 : Board := clearCastlingFlags b1 m.dst
  let b3 : Board := { b2 with ep := SQUARE_INVALID }
  let b4 : Board :=
    match m.special with
    | .kingMove =>
        let p := sqAt b3 m.src
        let b' : Board := { b3 with squares := (b3.squares.set m.dst p).set m.src ' ' }
        if b'.white then { b' with wkingSq := m.dst } else { b' with bkingSq := m.dst }
    | .promotionQueen =>
        { b3 with squares := (b3.squares.set m.src ' ').set m.dst (if b3.white then 'Q' else 'q') }
    | .promotionRook =>
        { b3 with squares := (b3.squares.set m.src ' ').set m.dst (if b3.white then 'R' else 'r') }
    | .promotionBishop =>
        { b3 with squares := (b3.squares.set m.src ' ').set m.dst (if b3.white then 'B' else 'b') }
    | .promotionKnight =>
        { b3 with squares := (b3.squares.set m.src ' ').set m.dst (if b3.white then 'N' else 'n') }
    | .wEnPassant =>
        { b3 with squares := ((b3.squares.set m.src ' ').set m.dst 'P').set (m.dst + 8) ' ' }
    | .bEnPassant =>
        { b3 with squares := ((b3.squares.set m.src ' ').set m.dst 'p').set (m.dst - 8) ' ' }
    | .wPawn2Squares =>
        { b3 with squares := (b3.squares.set m.src ' ').set m.dst 'P', ep := m.dst + 8 }
    | .bPawn2Squares =>
        { b3 with squares := (b3.squares.set m.src ' ').set m.dst 'p', ep := m.dst - 8 }
    | .wkCastling =>
        { b3 with squares := (((b3.squares.set 60 ' ').set 61 'R').set 62 'K').set 63 ' ',
                  wkingSq := 62 }
    | .wqCastling =>
        { b3 with squares := (((b3.squares.set 60 ' ').set 59 'R').set 58 'K').set 56 ' ',
                  wkingSq := 58 }
    | .bkCastling =>
        { b3 with squares := (((b3.squares.set 4 ' ').set 5 'r').set 6 'k').set 7 ' ',
                  bkingSq := 6 }
    | .bqCastling =>
        { b3 with squares := (((b3.squares.set 4 ' ').set 3 'r').set 2 'k').set 0 ' ',
                  bkingSq := 2 }
    | .notSpecial =>
        let p := sqAt b3 m.src
        { b3 with squares := (b3.squares.set m.dst p).set m.src ' ' }
  { b4 with white := !b4.white }

/-- PopMove of thc.cpp: pop the DETAIL snapshot, toggle the side to move,
and restore the squares according to the special tag. -/
def PopMove (b : Board) (m : Move) : Board :=
  let d := b.detailStack.headD (detailOf b)
  let b1 : Board := { restoreDetail b d with detailStack := b.detailStack.tail }
  let b2 : Board := { b1 with white := !b1.white }
  match m.special with
  | .promotionQueen | .promotionRook | .promotionBishop | .promotionKnight =>
      { b2 with squares := (b2.squares.set m.src (if b2.white then 'P' else 'p')).set m.dst m.capture }
  | .wEnPassant =>
      { b2 with squares := ((b2.squares.set m.src 'P').set m.dst ' ').set (m.dst + 8) 'p' }
  | .bEnPassant =>
      { b2 with squares := ((b2.squares.set m.src 'p').set m.dst ' ').set (m.dst - 8) 'P' }
  | .wkCastling =>
      { b2 with squares := (((b2.squares.set 60 'K').set 61 ' ').set 62 ' ').set 63 'R' }
  | .wqCastling =>
      { b2 with squares := (((b2.squares.set 60 'K').set 59 ' ').set 58 ' ').set 56 'R' }
  | .bkCastling =>
      { b2 with squares := (((b2.squares.set 4 'k').set 5 ' ').set 6 ' ').set 7 'r' }
  | .bqCastling =>
      { b2 with squares := (((b2.squares.set 4 'k').set 3 ' ').set 2 ' ').set 0 'r' }
  | _ =>
      let p := sqAt b2 m.dst
      { b2 with squares := (b2.squares.set m.src p).set m.dst m.capture }

/-- Modelled from the spec: the Random64 table of hashing.h is missing from
the source tree; the specification describes it as 781 fixed random 64-bit
constants.  A fixed linear-congruential formula reduced mod 2 to the 64
stands in for the constant table.  No claim below depends on the actual
values, only on their being fixed 64-bit constants. -/
def Random64 (i : Nat) : Nat :=
  ((i + 1) * 6364136223846793005 + 1442695040888963407) % (2 ^ 64)

/-- Modelled from the spec: the pieceNumber array of the missing hashing.h.
The specification fixes 768 piece-on-square constants indexed by 12 piece
kinds in the Polyglot convention (black pawn 0, white pawn 1, ..., white
king 11); hashing.cpp indexes it by the piece character minus the letter B. -/
def pieceNumber (c : Char) : Nat :=
  if c = 'p' then 0 else if c = 'P' then 1
  else if c = 'n' then 2 else if c = 'N' then 3
  else if c = 'b' then 4 else if c = 'B' then 5
  else if c = 'r' then 6 else if c = 'R' then 7
  else if c = 'q' then 8 else if c = 'Q' then 9
  else if c = 'k' then 10 else if c = 'K' then 11
  else 0

/-- Offset of the castling constants (hashing.cpp block comment). -/
def castleOffset : Nat := 768

/-- Offset of the en-passant file constants (hashing.cpp block comment). -/
def enPassantOffset : Nat := 772

/-- Offset of the side-to-move constant (hashing.cpp block comment). -/
def turnOffset : Nat := 780

/-- Modelled from the spec: wking_allowed() of the missing thc.h.  Its
semantics are pinned down by thc.cpp (the PresristineLookup comparison):
the white-kingside castling flag is set and the king and rook still stand
on e1 and h1. -/
def wkingAllowed (b : Board) : Bool :=
  b.wking && (sqAt b 60 == 'K') && (sqAt b 63 == 'R')

/-- Modelled from the spec: wqueen_allowed() of the missing thc.h. -/
def wqueenAllowed (b : Board) : Bool :=
  b.wqueen && (sqAt b 60 == 'K') && (sqAt b 56 == 'R')

/-- Modelled from the spec: bking_allowed() of the missing thc.h. -/
def bkingAllowed (b : Board) : Bool :=
  b.bking && (sqAt b 4 == 'k') && (sqAt b 7 == 'r')

/-- Modelled from the spec: bqueen_allowed() of the missing thc.h. -/
def bqueenAllowed (b : Board) : Bool :=
  b.bqueen && (sqAt b 4 == 'k') && (sqAt b 0 == 'r')

/-- Modelled from the spec: groomed_enpassant_target() of the missing thc.h.
The specification says the en-passant file is hashed only when the
en-passant target is set and a pawn of the side to move actually stands on
an adjacent capturing square.  Returns SQUARE_INVALID when no capture is
possible. -/
def groomedEnpassantTarget (b : Board) : Nat :=
  if b.white then
    if 16 ≤ b.ep && b.ep ≤ 23 &&
       ((decide (0 < b.ep % 8) && (sqAt b (b.ep + 7) == 'P')) ||
        (decide (b.ep % 8 < 7) && (sqAt b (b.ep + 9) == 'P'))) then b.ep
    else SQUARE_INVALID
  else
    if 40 ≤ b.ep && b.ep ≤ 47 &&
       ((decide (0 < b.ep % 8) && (sqAt b (b.ep - 9) == 'p')) ||
        (decide (b.ep % 8 < 7) && (sqAt b (b.ep - 7) == 'p'))) then b.ep
    else SQUARE_INVALID

/-- Zobrist constant for having the given piece character on square i
(hashing.cpp indexing: 64 * kind + 8 * rank + file with rank = 7 - i / 8
and file = i mod 8). -/
def pieceTerm (c : Char) (i : Nat) : Nat :=
  Random64 (64 * pieceNumber c + 8 * (7 - i / 8) + i % 8)

/-- zobristHash64Calculate of hashing.cpp: XOR of the piece-square constants
of all occupied squares, the enabled castling constants, the groomed
en-passant file constant and the side-to-move constant. -/
def zobristHash64Calculate (b : Board) : Nat :=
  let h0 := (List.range 64).foldl
    (fun h i =>
      let c := sqAt b i
      if 'B' ≤ c ∧ c ≤ 'r' then h ^^^ pieceTerm c i else h) 0
  let h1 := if wkingAllowed b then h0 ^^^ Random64 (castleOffset + 0) else h0
  let h2 := if wqueenAllowed b then h1 ^^^ Random64 (castleOffset + 1) else h1
  let h3 := if bkingAllowed b then h2 ^^^ Random64 (castleOffset + 2) else h2
  let h4 := if bqueenAllowed b then h3 ^^^ Random64 (castleOffset + 3) else h3
  let h5 := if groomedEnpassantTarget b ≠ SQUARE_INVALID then
              h4 ^^^ Random64 (enPassantOffset + groomedEnpassantTarget b % 8)
            else h4
  if b.white then h5 ^^^ Random64 turnOffset else h5

/-- zobristHash64Update of hashing.cpp: incremental hash update, called on
the pre-move board before PushMove and called again after PopMove. -/
def zobristHash64Update (hash : Nat) (cr : Board) (m : Move) : Nat :=
  let piece := sqAt cr m.src
  let srcFile := m.src % 8
  let srcRank := 7 - m.src / 8
  let target := sqAt cr m.dst
  let dstFile := m.dst % 8
  let dstRank := 7 - m.dst / 8
  let h :=
    match m.special with
    | .wkCastling =>
        hash ^^^ Random64 (64 * pieceNumber 'K' + 8 * 0 + 4)
             ^^^ Random64 (64 * pieceNumber 'K' + 8 * 0 + 6)
             ^^^ Random64 (64 * pieceNumber 'R' + 8 * 0 + 7)
             ^^^ Random64 (64 * pieceNumber 'R' + 8 * 0 + 5)
             ^^^ Random64 (castleOffset + 0)
             ^^^ (if wqueenAllowed cr then Random64 (castleOffset + 1) else 0)
    | .bkCastling =>
        hash ^^^ Random64 (64 * pieceNumber 'k' + 8 * 7 + 4)
             ^^^ Random64 (64 * pieceNumber 'k' + 8 * 7 + 6)
             ^^^ Random64 (64 * pieceNumber 'r' + 8 * 7 + 7)
             ^^^ Random64 (64 * pieceNumber 'r' + 8 * 7 + 5)
             ^^^ Random64 (castleOffset + 2)
             ^^^ (if bqueenAllowed cr then Random64 (castleOffset + 3) else 0)
    | .wqCastling =>
        hash ^^^ Random64 (64 * pieceNumber 'K' + 8 * 0 + 4)
             ^^^ Random64 (64 * pieceNumber 'K' + 8 * 0 + 2)
             ^^^ Random64 (64 * pieceNumber 'R' + 8 * 0 + 0)
             ^^^ Random64 (64 * pieceNumber 'R' + 8 * 0 + 3)
             ^^^ (if wkingAllowed cr then Random64 (castleOffset + 0) else 0)
             ^^^ Random64 (castleOffset + 1)
    | .bqCastling =>
        hash ^^^ Random64 (64 * pieceNumber 'k' + 8 * 7 + 4)
             ^^^ Random64 (64 * pieceNumber 'k' + 8 * 7 + 2)
             ^^^ Random64 (64 * pieceNumber 'r' + 8 * 7 + 0)
             ^^^ Random64 (64 * pieceNumber 'r' + 8 * 7 + 3)
             ^^^ (if bkingAllowed cr then Random64 (castleOffset + 2) else 0)
             ^^^ Random64 (castleOffset + 3)
    | .promotionQueen =>
        let h1 := if target ≠ ' ' then hash ^^^ Random64 (64 * pieceNumber target + 8 * dstRank + dstFile) else hash
        h1 ^^^ Random64 (64 * pieceNumber piece + 8 * srcRank + srcFile)
           ^^^ Random64 (64 * pieceNumber (if piece = 'P' then 'Q' else 'q') + 8 * dstRank + dstFile)
    | .promotionRook =>
        let h1 := if target ≠ ' ' then hash ^^^ Random64 (64 * pieceNumber target + 8 * dstRank + dstFile) else hash
        h1 ^^^ Random64 (64 * pieceNumber piece + 8 * srcRank + srcFile)
           ^^^ Random64 (64 * pieceNumber (if piece = 'P' then 'R' else 'r') + 8 * dstRank + dstFile)
    | .promotionBishop =>
        let h1 := if target ≠ ' ' then hash ^^^ Random64 (64 * pieceNumber target + 8 * dstRank + dstFile) else hash
        h1 ^^^ Random64 (64 * pieceNumber piece + 8 * srcRank + srcFile)
           ^^^ Random64 (64 * pieceNumber (if piece = 'P' then 'B' else 'b') + 8 * dstRank + dstFile)
    | .promotionKnight =>
        let h1 := if target ≠ ' ' then hash ^^^ Random64 (64 * pieceNumber target + 8 * dstRank + dstFile) else hash
        h1 ^^^ Random64 (64 * pieceNumber piece + 8 * srcRank + srcFile)
           ^^^ Random64 (64 * pieceNumber (if piece = 'P' then 'N' else 'n') + 8 * dstRank + dstFile)
    | .wEnPassant =>
        hash ^^^ Random64 (64 * pieceNumber 'P' + 8 * 4 + srcFile)
             ^^^ Random64 (64 * pieceNumber 'P' + 8 * 5 + dstFile)
             ^^^ Random64 (64 * pieceNumber 'p' + 8 * 4 + dstFile)
    | .bEnPassant =>
        hash ^^^ Random64 (64 * pieceNumber 'p' + 8 * 3 + srcFile)
             ^^^ Random64 (64 * pieceNumber 'p' + 8 * 2 + dstFile)
             ^^^ Random64 (64 * pieceNumber 'P' + 8 * 3 + dstFile)
    | _ =>
        let h1 := if target ≠ ' ' then hash ^^^ Random64 (64 * pieceNumber target + 8 * dstRank + dstFile) else hash
        let h2 := h1 ^^^ Random64 (64 * pieceNumber piece + 8 * srcRank + srcFile)
        let h3 := h2 ^^^ Random64 (64 * pieceNumber piece + 8 * dstRank + dstFile)
        if m.special = .wPawn2Squares ∨ m.special = .bPawn2Squares then
          let pushed := PushMove cr m
          if groomedEnpassantTarget pushed ≠ SQUARE_INVALID then
            h3 ^^^ Random64 (enPassantOffset + groomedEnpassantTarget pushed % 8)
          else h3
        else if piece = 'K' then
          h3 ^^^ (if wkingAllowed cr then Random64 (castleOffset + 0) else 0)
             ^^^ (if wqueenAllowed cr then Random64 (castleOffset + 1) else 0)
        else if piece = 'k' then
          h3 ^^^ (if bkingAllowed cr then Random64 (castleOffset + 2) else 0)
             ^^^ (if bqueenAllowed cr then Random64 (castleOffset + 3) else 0)
        else if piece = 'R' then
          h3 ^^^ (if srcFile = 7 ∧ srcRank = 0 ∧ wkingAllowed cr then Random64 (castleOffset + 0) else 0)
             ^^^ (if srcFile = 0 ∧ srcRank = 0 ∧ wqueenAllowed cr then Random64 (castleOffset + 1) else 0)
        else if piece = 'r' then
          h3 ^^^ (if srcFile = 7 ∧ srcRank = 7 ∧ bkingAllowed cr then Random64 (castleOffset + 2) else 0)
             ^^^ (if srcFile = 0 ∧ srcRank = 7 ∧ bqueenAllowed cr then Random64 (castleOffset + 3) else 0)
        else h3
  let h5 :=
    if m.capture ≠ Char.ofNat 0 then
      if target = 'r' then
        h ^^^ (if dstFile = 7 ∧ dstRank = 7 ∧ bkingAllowed cr then Random64 (castleOffset + 2) else 0)
          ^^^ (if dstFile = 0 ∧ dstRank = 7 ∧ bqueenAllowed cr then Random64 (castleOffset + 3) else 0)
      else if target = 'R' then
        h ^^^ (if dstFile = 7 ∧ dstRank = 0 ∧ wkingAllowed cr then Random64 (castleOffset + 0) else 0)
          ^^^ (if dstFile = 0 ∧ dstRank = 0 ∧ wqueenAllowed cr then Random64 (castleOffset + 1) else 0)
      else h
    else h
  let h6 :=
    if groomedEnpassantTarget cr ≠ SQUARE_INVALID then
      h5 ^^^ Random64 (enPassantOffset + groomedEnpassantTarget cr % 8)
    else h5
  h6 ^^^ Random64 turnOffset

/-- MATE_SCORE from engine.h. -/
def MATE_SCORE : Int := 100000

/-- Bound kind of a transposition entry, from hashTable.h / the missing
hashing.h (enum class Flag). -/
inductive Flag where
  | NONE
  | EXACT
  | ALPHA
  | BETA
deriving DecidableEq, Repr

/-- Modelled from the spec: hashEntry as used by engine.cpp.  The
hashTable.h in the tree lacks the repetitionCount field that engine.cpp
reads and writes; the specification describes the slot as key, depth,
bound kind, score, best move and repetition count, which matches every
use in engine.cpp. -/
structure hashEntry where
  key : Nat
  depth : Int
  flag : Flag
  score : Int
  bestMove : Move
  repetitionCount : Nat
deriving DecidableEq, Repr

/-- Zero-initialized hashEntry, as produced by hashTable_.resize in
Engine::initHashTable. -/
def emptyEntry : hashEntry :=
  { key := 0, depth := 0, flag := .NONE, score := 0,
    bestMove := { src := 0, dst := 0, capture := Char.ofNat 0, special := .notSpecial },
    repetitionCount := 0 }

/-- Engine::probeHash of engine.cpp acting on the slot addressed by the
current hash: returns whether the probe hit, the score that would be
written through the out-parameter, and the (possibly rewritten) slot. -/
def probeHash (currentHash : Nat) (entry : hashEntry) (depth alpha beta : Int) :
    Bool × Int × hashEntry :=
  if entry.key = currentHash then
    if entry.depth ≥ depth then
      if entry.repetitionCount ≥ 2 then
        (true, 0, { entry with score := 0, flag := .EXACT })
      else if entry.flag = .EXACT then
        (true, entry.score, entry)
      else if entry.flag = .ALPHA ∧ entry.score ≤ alpha then
        (true, alpha, entry)
      else if entry.flag = .BETA ∧ entry.score ≥ beta then
        (true, beta, entry)
      else (false, 0, entry)
    else (false, 0, entry)
  else (false, 0, entry)

/-- Engine::recordHash of engine.cpp acting on the slot addressed by the
current hash: returns the new slot content and whether the occupancy
counter is bumped.  The repetitionCount field of the slot is not touched. -/
def recordHash (currentHash : Nat) (entry : hashEntry) (depth : Int) (flag : Flag)
    (score : Int) (bestMove : Move) : hashEntry × Bool :=
  let bump := entry.flag = .NONE
  if entry.flag = .NONE ∨ entry.depth ≤ depth then
    ({ key := currentHash, depth := depth, flag := flag, score := score,
       bestMove := bestMove, repetitionCount := entry.repetitionCount },
     decide bump)
  else (entry, decide bump)

/-- TERMINAL of thc.h as produced by ChessRules::Evaluate in thc.cpp:
checkmate or stalemate of the side to move (thc.cpp only ever reports
WCHECKMATE / WSTALEMATE with white to move and the B forms with black
to move), or not terminal. -/
inductive TERMINAL where
  | NOT_TERMINAL
  | WCHECKMATE
  | BCHECKMATE
  | WSTALEMATE
  | BSTALEMATE
deriving DecidableEq, Repr

/-- Engine::evaluate of engine.cpp, as a function of the results of the
board-primitive queries it performs: cr_.white, cr_.IsDraw, the terminal
classification from cr_.Evaluate, and the material and positional scores
from cr_.EvaluateLeaf. -/
def evaluate (white : Bool) (isDraw : Bool) (terminalScore : TERMINAL)
    (evalMat evalPos : Int) : Int :=
  if isDraw then 0
  else
    match terminalScore with
    | .WCHECKMATE => if !white then MATE_SCORE else -MATE_SCORE
    | .BCHECKMATE => if !white then -MATE_SCORE else MATE_SCORE
    | .WSTALEMATE => 0
    | .BSTALEMATE => 0
    | .NOT_TERMINAL =>
        if white then 4 * evalMat + evalPos else -4 * evalMat + evalPos

/-- Mate-score correction of engine.cpp (alphaBeta, lines 262-266): when the
negated child score is within the reserved mate band, nudge its magnitude
down by one. -/
def mateScoreCorrection (currentScore : Int) : Int :=
  if MATE_SCORE - |currentScore| < 100 then
    if currentScore > 0 then currentScore - 1 else currentScore + 1
  else currentScore

/-- Polyglot book record, from book.h: 8-byte key, 2-byte move, 2-byte
weight, 4-byte learn field, stored little-endian in memory (the file is
big-endian, hence the byte swaps below). -/
structure polyBookEntry where
  key : Nat
  move : Nat
  weight : Nat
  learn : Nat
deriving DecidableEq, Repr

/-- endianSwapU16 of book.cpp (result truncated to 16 bits by the
unsigned short assignment). -/
def endianSwapU16 (x : Nat) : Nat :=
  ((x >>> 8) ||| (x <<< 8)) % 65536

/-- endianSwapU64 of book.cpp (left shifts truncated to 64 bits as in C). -/
def endianSwapU64 (x : Nat) : Nat :=
  (x >>> 56) |||
  (((x <<< 40) % (2 ^ 64)) &&& 0x00FF000000000000) |||
  (((x <<< 24) % (2 ^ 64)) &&& 0x0000FF0000000000) |||
  (((x <<< 8) % (2 ^ 64)) &&& 0x000000FF00000000) |||
  ((x >>> 8) &&& 0x00000000FF000000) |||
  ((x >>> 24) &&& 0x0000000000FF0000) |||
  ((x >>> 40) &&& 0x000000000000FF00) |||
  ((x <<< 56) % (2 ^ 64))

/-- Book::listMoves of book.cpp: linear scan collecting every entry whose
byte-swapped key equals the hash; returns the found flag and the matches
in scan order. -/
def listMoves (positionList : List polyBookEntry) (hash : Nat) :
    Bool × List polyBookEntry :=
  let moves := positionList.filter (fun entry => endianSwapU64 entry.key == hash)
  (!moves.isEmpty, moves)

/-- The promotionPieces array of Book::getMove. -/
def promotionPieces : List Char := ['?', 'n', 'b', 'r', 'q']

/-- Book::getMove of book.cpp: take the first listed match, byte-swap its
16-bit move field, unpack it into file and rank characters, and append
an equals sign plus a promotion piece character when the promotion bits
are nonzero.  Returns none when no entry matches. -/
def getMove (positionList : List polyBookEntry) (hash : Nat) : Option String :=
  let found := (listMoves positionList hash).1
  let moves := (listMoves positionList hash).2
  if found then
    let mv := endianSwapU16 (moves.headD { key := 0, move := 0, weight := 0, learn := 0 }).move
    let moveTerse : List Char :=
      [ Char.ofNat (((mv >>> 6) &&& 7) + 97),
        Char.ofNat (((mv >>> 9) &&& 7) + 1 + 48),
        Char.ofNat ((mv &&& 7) + 97),
        Char.ofNat (((mv >>> 3) &&& 7) + 1 + 48) ]
    if mv >>> 12 ≠ 0 then
      some (String.mk (moveTerse ++ ['=', promotionPieces.getD (mv >>> 12) '?']))
    else
      some (String.mk moveTerse)
  else none

/-- Modelled from the spec: sizeof(hashEntry).  The numeric value is not in
the sources (the struct lives in the missing hashing.h); the claims below
depend only on it being a fixed positive constant. -/
def sizeofHashEntry : Nat := 32

/-- Protocol-level engine state relevant to cache addressing: the member
initializers of engine.h give numPositions_ the initial value 0 and
hashTableSize_ the initial value 64 (MB). -/
structure ProtocolState where
  numPositions : Nat
  hashTableSize : Nat
deriving DecidableEq, Repr

/-- Engine state right after construction (engine.h initializers and the
Engine constructor). -/
def initialProtocolState : ProtocolState :=
  { numPositions := 0, hashTableSize := 64 }

/-- Engine::initHashTable of engine.cpp: numPositions_ becomes
hashTableSize_*1024*1024/sizeof(hashEntry). -/
def initHashTable (s : ProtocolState) : ProtocolState :=
  { s with numPositions := s.hashTableSize * 1024 * 1024 / sizeofHashEntry }

/-- UCI commands distinguished by Engine::protocolLoop. -/
inductive UciCommand where
  | uci
  | isready
  | ucinewgame
  | debugCmd
  | setoption
  | registerCmd
  | position
  | go
deriving DecidableEq, Repr

/-- Effect of one protocolLoop dispatch on numPositions_: only the uci and
ucinewgame branches call initHashTable (engine.cpp lines 31-41); the
position and go branches use numPositions_ as a modulo divisor but never
change it. -/
def protocolStep (s : ProtocolState) (c : UciCommand) : ProtocolState :=
  match c with
  | .uci => initHashTable s
  | .ucinewgame => initHashTable s
  | _ => s

/-- State after a command stream. -/
def protocolRun (cs : List UciCommand) : ProtocolState :=
  cs.foldl protocolStep initialProtocolState

/-- Divisors of the modulo operations hash % numPositions_ performed by the
repetition-count loop of Engine::updatePosition (engine.cpp line 130): one
per entry of repetitionHashHistory_, which always holds at least the
current hash (line 110). -/
def updatePositionDivisors (s : ProtocolState) (historyLength : Nat) : List Nat :=
  List.replicate (historyLength + 1) s.numPositions

/-- Square characters of the standard starting position. -/
def startSquares : List Char :=
  "rnbqkbnrpppppppp                                PPPPPPPPRNBQKBNR".toList

/-- Standard starting position with both castling rights and an empty
detail stack. -/
def startBoard : Board :=
  { squares := startSquares, white := true, ep := SQUARE_INVALID,
    wkingSq := 60, bkingSq := 4,
    wking := true, wqueen := true, bking := true, bqueen := true,
    detailStack := [] }

/-- Knight g1 to f3 from the starting position. -/
def ng1f3 : Move := { src := 62, dst := 45, capture := ' ', special := .notSpecial }

/-- Pawn e2 to e4 (a double push) from the starting position. -/
def e2e4 : Move := { src := 52, dst := 36, capture := ' ', special := .wPawn2Squares }

/-- Move::TerseOut of thc.cpp: the null move (equal source and destination)
prints 0000; otherwise file and rank characters of source and destination,
with a promotion piece letter appended for promotions. -/
def TerseOut (m : Move) : String :=
  if m.src = m.dst then "0000"
  else
    let base : List Char :=
      [ Char.ofNat ((m.src % 8) + 'a'.toNat),
        Char.ofNat ('8'.toNat - (m.src / 8) % 8),
        Char.ofNat ((m.dst % 8) + 'a'.toNat),
        Char.ofNat ('8'.toNat - (m.dst / 8) % 8) ]
    match m.special with
    | .promotionQueen => String.mk (base ++ ['q'])
    | .promotionRook => String.mk (base ++ ['r'])
    | .promotionBishop => String.mk (base ++ ['b'])
    | .promotionKnight => String.mk (base ++ ['n'])
    | _ => String.mk base

/-- Default-constructed thc::Move value (all fields zero), used to model
array cells that the engine never wrote. -/
def defaultMove : Move :=
  { src := 0, dst := 0, capture := Char.ofNat 0, special := .notSpecial }

/-- PV line of engine.h: a move counter and a move array (the array is
modelled as a total function; cells at or beyond moveCount are whatever
was previously stored there, exactly like the C array). -/
structure Line where
  moveCount : Nat
  moves : Nat → Move

/-- Search-relevant engine state: the board, the incrementally maintained
hash, the transposition table (a slot function addressed modulo
numPositions_), and the bookkeeping fields of engine.h. -/
structure SearchState where
  cr : Board
  currentHash : Nat
  hashTable : Nat → hashEntry
  numPositions : Nat
  tableEntries : Nat
  evaluatedPositions : Nat
  usingPreviousLine : Bool
  globalPvLine : Line

/-- Modelled from the spec: the board-primitive queries Engine::alphaBeta
and Engine::evaluate delegate to thc (legal move generation, draw rule,
terminal classification, leaf scores).  The specification treats them as
an external collaborator; theorems below quantify over every
implementation, which covers the actual thc library. -/
structure BoardPrimitives where
  GenLegalMoveList : Board → List Move
  IsDraw : Board → Bool
  EvaluateTerminal : Board → TERMINAL
  EvaluateLeaf : Board → Int × Int

/-- Engine::evaluate of engine.cpp applied to the current board, with the
board-primitive results supplied by the collaborator. -/
def evaluateOn (o : BoardPrimitives) (b : Board) : Int :=
  evaluate b.white (o.IsDraw b) (o.EvaluateTerminal b)
    (o.EvaluateLeaf b).1 (o.EvaluateLeaf b).2

/-- State-level Engine::probeHash: read the slot addressed by the current
hash and interpret it (possibly rewriting the slot for repetition draws). -/
def probeHashS (s : SearchState) (depth alpha beta : Int) :
    Bool × Int × SearchState :=
  let idx := s.currentHash % s.numPositions
  let r := probeHash s.currentHash (s.hashTable idx) depth alpha beta
  (r.1, r.2.1, { s with hashTable := Function.update s.hashTable idx r.2.2 })

/-- State-level Engine::recordHash: rewrite the slot addressed by the
current hash according to the replacement policy and bump the occupancy
counter on empty-to-occupied transitions. -/
def recordHashS (s : SearchState) (depth : Int) (flag : Flag) (score : Int)
    (bestMove : Move) : SearchState :=
  let idx := s.currentHash % s.numPositions
  let r := recordHash s.currentHash (s.hashTable idx) depth flag score bestMove
  { s with hashTable := Function.update s.hashTable idx r.1,
           tableEntries := s.tableEntries + (if r.2 then 1 else 0) }

/-- The repetition-count increment performed after each push in the
alphaBeta move loop (engine.cpp line 256). -/
def incrementRepetition (s : SearchState) : SearchState :=
  let idx := s.currentHash % s.numPositions
  let e := s.hashTable idx
  { s with hashTable :=
      Function.update s.hashTable idx { e with repetitionCount := e.repetitionCount + 1 } }

/-- The repetition-count decrement performed before each pop in the
alphaBeta move loop (engine.cpp line 258). -/
def decrementRepetition (s : SearchState) : SearchState :=
  let idx := s.currentHash % s.numPositions
  let e := s.hashTable idx
  { s with hashTable :=
      Function.update s.hashTable idx { e with repetitionCount := e.repetitionCount - 1 } }

/-- PV rewrite on an improvement (engine.cpp lines 277-279): the chosen
move followed by the child line; cells beyond the copied range keep the
parent line's old content, exactly like the memcpy. -/
def lineWrite (pvLine : Line) (mv : Move) (child : Line) : Line :=
  { moveCount := child.moveCount + 1,
    moves := fun i =>
      if i = 0 then mv
      else if i ≤ child.moveCount then child.moves (i - 1)
      else pvLine.moves i }

/-- Move ordering of engine.cpp lines 234-240: look for the previous PV
move (compared by terse coordinates) in the legal list and swap it with
the front; leave the list unchanged when it is absent. -/
def swapPvToFront (moves : List Move) (pv : Move) : List Move :=
  match moves.findIdx? (fun mv => TerseOut mv == TerseOut pv) with
  | some i => (moves.set 0 (moves.getD i defaultMove)).set i (moves.getD 0 defaultMove)
  | none => moves

/-- One iteration of the alphaBeta move loop, setup and teardown around the
child search (engine.cpp lines 254-260): update the hash, push the move,
bump the repetition counter of the new position, run the child search,
undo the counter bump, pop the move and update the hash back.  Returns the
child result together with the state after the teardown. -/
def alphaBetaStep (recCall : Int → Int → Line → SearchState → Int × Line × SearchState)
    (mv : Move) (alpha beta : Int) (childLine : Line) (s : SearchState) :
    Int × Line × SearchState :=
  let s1 : SearchState := { s with currentHash := zobristHash64Update s.currentHash s.cr mv }
  let s2 : SearchState := { s1 with cr := PushMove s1.cr mv }
  let s3 := incrementRepetition s2
  let r := recCall (-beta) (-alpha) childLine s3
  let s5 := decrementRepetition r.2.2
  let s6 : SearchState := { s5 with cr := PopMove s5.cr mv }
  let s7 : SearchState := { s6 with currentHash := zobristHash64Update s6.currentHash s6.cr mv }
  (r.1, r.2.1, s7)

/-- The alphaBeta move loop (engine.cpp lines 253-284), parametrized by the
recursive search call for depth-1: after each child search and teardown,
apply the mate-score correction, cut at beta recording a lower bound, or
raise alpha, rewrite the PV and remember the move as best. -/
def alphaBetaLoop (recCall : Int → Int → Line → SearchState → Int × Line × SearchState)
    (depth : Int) : List Move → Int → Int → Line → Line → Move → Flag → SearchState →
    Int × Line × SearchState
  | [], alpha, _, pvLine, _, bestMove, flag, s =>
      (alpha, pvLine, recordHashS s depth flag alpha bestMove)
  | mv :: rest, alpha, beta, pvLine, childLine, bestMove, flag, s =>
      let r := alphaBetaStep recCall mv alpha beta childLine s
      let currentScore := mateScoreCorrection (-r.1)
      if currentScore ≥ beta then
        (beta, pvLine, recordHashS r.2.2 depth .BETA beta mv)
      else if currentScore > alpha then
        alphaBetaLoop recCall depth rest currentScore beta
          (lineWrite pvLine mv r.2.1) r.2.1 mv .EXACT
          { r.2.2 with usingPreviousLine := false }
      else
        alphaBetaLoop recCall depth rest alpha beta pvLine r.2.1 bestMove flag r.2.2

/-- Engine::alphaBeta of engine.cpp: probe the table, stop at depth zero or
a position without legal moves (evaluate and record an exact entry with an
invalid best move), otherwise order the moves by the previous PV and run
the move loop. -/
def alphaBeta (o : BoardPrimitives) : Nat → Int → Int → Line → Nat → SearchState →
    Int × Line × SearchState
  | depth, alpha, beta, pvLineIn, initialDepth, s =>
    let pr := probeHashS s (depth : Int) alpha beta
    if pr.1 then (pr.2.1, pvLineIn, pr.2.2)
    else
      let s0 := pr.2.2
      let legalMoves := o.GenLegalMoveList s0.cr
      if h : depth = 0 ∨ legalMoves.length = 0 then
        let score := evaluateOn o s0.cr
        let sE : SearchState := { s0 with evaluatedPositions := s0.evaluatedPositions + 1 }
        let mv : Move := { src := SQUARE_INVALID, dst := SQUARE_INVALID,
                           capture := Char.ofNat 0, special := .notSpecial }
        (score, { pvLineIn with moveCount := 0 }, recordHashS sE (depth : Int) .EXACT score mv)
      else
        let bestMove := legalMoves.headD defaultMove
        let moveDepth := initialDepth - depth
        let ordered :=
          if s0.usingPreviousLine ∧ moveDepth < s0.globalPvLine.moveCount then
            (swapPvToFront legalMoves (s0.globalPvLine.moves moveDepth), s0)
          else (legalMoves, { s0 with usingPreviousLine := false })
        alphaBetaLoop (fun a b l st => alphaBeta o (depth - 1) a b l initialDepth st)
          (depth : Int) ordered.1 alpha beta pvLineIn
          { moveCount := 0, moves := fun _ => defaultMove } bestMove .ALPHA ordered.2
  termination_by depth _ _ _ _ _ => depth
  decreasing_by simp_wf; omega

/-- Engine::retrievePvLineFromTable (recursive form, engine.cpp lines
361-377): walk the table from the current hash appending stored best
moves, guarded by bound-kind, move validity, key match, a 30-move limit
and a visited set; push each move and undo everything on the way back.
The visited set is threaded explicitly (it is a by-reference std::set in
the C source). -/
def retrievePvAux (s : SearchState) (pvLine : Line) (hashHistory : List Nat) :
    Line × SearchState × List Nat :=
  let entry := s.hashTable (s.currentHash % s.numPositions)
  if entry.flag = .NONE ∨ entry.bestMove.src ≥ SQUARE_INVALID ∨
     entry.bestMove.dst ≥ SQUARE_INVALID ∨ TerseOut entry.bestMove = "0000" ∨
     entry.key ≠ s.currentHash ∨ pvLine.moveCount ≥ 30 ∨
     s.currentHash ∈ hashHistory then
    (pvLine, s, hashHistory)
  else
    let pvLine1 : Line := { moveCount := pvLine.moveCount + 1,
                            moves := fun i => if i = pvLine.moveCount then entry.bestMove
                                              else pvLine.moves i }
    let hh1 := s.currentHash :: hashHistory
    let s1 : SearchState := { s with currentHash := zobristHash64Update s.currentHash s.cr entry.bestMove }
    let s2 : SearchState := { s1 with cr := PushMove s1.cr entry.bestMove }
    let r := retrievePvAux s2 pvLine1 hh1
    let s4 : SearchState := { r.2.1 with cr := PopMove (r.2.1).cr entry.bestMove }
    let s5 : SearchState := { s4 with currentHash := zobristHash64Update s4.currentHash s4.cr entry.bestMove }
    (r.1, s5, r.2.2.erase s5.currentHash)
  termination_by 30 - pvLine.moveCount
  decreasing_by simp_wf; omega

/-- Engine::retrievePvLineFromTable (wrapper, engine.cpp lines 355-359):
start the walk with an empty visited set. -/
def retrievePvLineFromTable (s : SearchState) (pvLine : Line) : Line × SearchState :=
  let r := retrievePvAux s pvLine []
  (r.1, r.2.1)

/-- Soundness of the moves a PV walk will push: along the exact path the
walk takes, each stored best move, pushed on the board the walk has
reached, pops back to the same board.  This is what the 64-bit key match
is meant to ensure (it can only fail on a full hash collision). -/
def pvWalkChk (s : SearchState) (pvLine : Line) (hashHistory : List Nat) : Bool :=
  let entry := s.hashTable (s.currentHash % s.numPositions)
  if entry.flag = .NONE ∨ entry.bestMove.src ≥ SQUARE_INVALID ∨
     entry.bestMove.dst ≥ SQUARE_INVALID ∨ TerseOut entry.bestMove = "0000" ∨
     entry.key ≠ s.currentHash ∨ pvLine.moveCount ≥ 30 ∨
     s.currentHash ∈ hashHistory then
    true
  else
    let pvLine1 : Line := { moveCount := pvLine.moveCount + 1,
                            moves := fun i => if i = pvLine.moveCount then entry.bestMove
                                              else pvLine.moves i }
    let hh1 := s.currentHash :: hashHistory
    let s1 : SearchState := { s with currentHash := zobristHash64Update s.currentHash s.cr entry.bestMove }
    let s2 : SearchState := { s1 with cr := PushMove s1.cr entry.bestMove }
    decide (PopMove (PushMove s.cr entry.bestMove) entry.bestMove = s.cr) &&
      pvWalkChk s2 pvLine1 hh1
  termination_by 30 - pvLine.moveCount
  decreasing_by simp_wf; omega

/-- The bestmove line emitted at the end of Engine::inputGo (engine.cpp
line 206): unconditionally the terse form of globalPvLine_.moves[0],
whatever the move count is. -/
def inputGoBestmoveOutput (globalPvLine : Line) : String :=
  "bestmove " ++ TerseOut (globalPvLine.moves 0)

/-- The state components that the frame property says a search restores:
the board, the current hash, and (pointwise) the repetition counters of
the cache; numPositions is carried along because the slot index depends
on it. -/
def FramePreserved (s s' : SearchState) : Prop :=
  s'.cr = s.cr ∧ s'.currentHash = s.currentHash ∧ s'.numPositions = s.numPositions ∧
  ∀ i, (s'.hashTable i).repetitionCount = (s.hashTable i).repetitionCount

/-- A line with no moves and zeroed cells. -/
def emptyLine : Line := { moveCount := 0, moves := fun _ => defaultMove }

/-- A trivial board-primitive collaborator: no legal moves anywhere, no
draws, no terminal positions, zero leaf scores. -/
def trivialPrimitives : BoardPrimitives :=
  { GenLegalMoveList := fun _ => [], IsDraw := fun _ => false,
    EvaluateTerminal := fun _ => .NOT_TERMINAL, EvaluateLeaf := fun _ => (0, 0) }

/-- A small concrete search state over the starting position with an empty
four-slot table. -/
def trivialSearchState : SearchState :=
  { cr := startBoard, currentHash := 5, hashTable := fun _ => emptyEntry,
    numPositions := 4, tableEntries := 0, evaluatedPositions := 0,
    usingPreviousLine := false, globalPvLine := emptyLine }

/-- The table entry written by the alphaBeta base case at a position with
no legal moves (engine.cpp lines 220-228): an exact score with an invalid
best move (both squares SQUARE_INVALID). -/
def mateRootEntry : hashEntry :=
  { key := 5, depth := 1, flag := .EXACT, score := -100000,
    bestMove := { src := SQUARE_INVALID, dst := SQUARE_INVALID,
                  capture := Char.ofNat 0, special := .notSpecial },
    repetitionCount := 0 }

/-- Search state after a depth-1 search of a checkmated root: every slot
holds the base-case entry with its invalid best move. -/
def mateRootState : SearchState :=
  { trivialSearchState with hashTable := fun _ => mateRootEntry }

/-- Contribution of one square to the piece part of the scratch hash: the
piece-square constant when the character passes the guard of the
zobristHash64Calculate loop, zero otherwise. -/
def pieceContrib (c : Char) (i : Nat) : Nat :=
  if 'B' ≤ c ∧ c ≤ 'r' then pieceTerm c i else 0

/-- XOR of the contributions of the first n indices of a square function. -/
def Fn (g : Nat → Nat) (n : Nat) : Nat :=
  (List.range n).foldl (fun h i => h ^^^ g i) 0

/-- Piece part of the scratch hash of a square list. -/
def squaresXor (l : List Char) : Nat :=
  Fn (fun i => pieceContrib (l.getD i ' ') i) 64

/-- Castling part of the scratch hash. -/
def castleXor (b : Board) : Nat :=
  (if wkingAllowed b then Random64 (castleOffset + 0) else 0) ^^^
  (if wqueenAllowed b then Random64 (castleOffset + 1) else 0) ^^^
  (if bkingAllowed b then Random64 (castleOffset + 2) else 0) ^^^
  (if bqueenAllowed b then Random64 (castleOffset + 3) else 0)

/-- En-passant part of the scratch hash. -/
def epXor (b : Board) : Nat :=
  if groomedEnpassantTarget b ≠ SQUARE_INVALID then
    Random64 (enPassantOffset + groomedEnpassantTarget b % 8)
  else 0

/-- Side-to-move part of the scratch hash. -/
def turnXor (b : Board) : Nat :=
  if b.white then Random64 turnOffset else 0

/-- One operation of a push/pop walk: push a move or pop the last pushed
move (the engine always pops the move it pushed, in LIFO order). -/
inductive WalkOp where
  | pushOp (m : Move)
  | popOp
deriving Repr

/-- State of a push/pop walk: the board, the incrementally maintained
hash, and the stack of currently pushed moves. -/
structure WalkState where
  cr : Board
  hash : Nat
  stack : List Move

/-- One step of the walk, exactly as the engine performs it: on a push the
hash is updated on the pre-move board and then the move is pushed
(engine.cpp lines 254-255); on a pop the move is popped first and the
hash updated on the restored board (engine.cpp lines 259-260). -/
def walkStep (s : WalkState) (op : WalkOp) : WalkState :=
  match op with
  | .pushOp m =>
      { cr := PushMove s.cr m,
        hash := zobristHash64Update s.hash s.cr m,
        stack := m :: s.stack }
  | .popOp =>
      match s.stack with
      | [] => s
      | m :: rest =>
          let cr' := PopMove s.cr m
          { cr := cr', hash := zobristHash64Update s.hash cr' m, stack := rest }

/-- Run a sequence of walk operations. -/
def walkRun (s : WalkState) (ops : List WalkOp) : WalkState :=
  ops.foldl walkStep s

/-- Well-formedness facts about a move relative to the board it is played
on, guaranteed for the moves produced by thc's legal move generation
(GenLegalMoveList in thc.cpp): the squares are on the board, the moved
piece matches the side to move and the special tag, the capture field
holds the content of the destination (the captured pawn for en passant),
kings are never captured, and the geometric preconditions of the special
tags hold (pawn ranks, castling squares and flags). -/
def MoveOK (b : Board) (m : Move) : Prop :=
  m.src < 64 ∧ m.dst < 64 ∧ m.src ≠ m.dst ∧
  match m.special with
  | .notSpecial =>
      (if b.white then sqAt b m.src ∈ ['P', 'N', 'B', 'R', 'Q', 'K']
       else sqAt b m.src ∈ ['p', 'n', 'b', 'r', 'q', 'k']) ∧
      (if b.white then sqAt b m.dst ∈ [' ', 'p', 'n', 'b', 'r', 'q']
       else sqAt b m.dst ∈ [' ', 'P', 'N', 'B', 'R', 'Q']) ∧
      m.capture = sqAt b m.dst
  | .kingMove =>
      sqAt b m.src = (if b.white then 'K' else 'k') ∧
      (if b.white then sqAt b m.dst ∈ [' ', 'p', 'n', 'b', 'r', 'q']
       else sqAt b m.dst ∈ [' ', 'P', 'N', 'B', 'R', 'Q']) ∧
      m.capture = sqAt b m.dst
  | .wPawn2Squares =>
      b.white = true ∧ sqAt b m.src = 'P' ∧ sqAt b m.dst = ' ' ∧ m.capture = ' ' ∧
      48 ≤ m.src ∧ m.src ≤ 55 ∧ m.dst = m.src - 16
  | .bPawn2Squares =>
      b.white = false ∧ sqAt b m.src = 'p' ∧ sqAt b m.dst = ' ' ∧ m.capture = ' ' ∧
      8 ≤ m.src ∧ m.src ≤ 15 ∧ m.dst = m.src + 16
  | .wkCastling =>
      b.white = true ∧ m.src = 60 ∧ m.dst = 62 ∧ m.capture = ' ' ∧
      sqAt b 60 = 'K' ∧ sqAt b 61 = ' ' ∧ sqAt b 62 = ' ' ∧ sqAt b 63 = 'R' ∧
      b.wking = true
  | .wqCastling =>
      b.white = true ∧ m.src = 60 ∧ m.dst = 58 ∧ m.capture = ' ' ∧
      sqAt b 60 = 'K' ∧ sqAt b 59 = ' ' ∧ sqAt b 58 = ' ' ∧ sqAt b 56 = 'R' ∧
      b.wqueen = true
  | .bkCastling =>
      b.white = false ∧ m.src = 4 ∧ m.dst = 6 ∧ m.capture = ' ' ∧
      sqAt b 4 = 'k' ∧ sqAt b 5 = ' ' ∧ sqAt b 6 = ' ' ∧ sqAt b 7 = 'r' ∧
      b.bking = true
  | .bqCastling =>
      b.white = false ∧ m.src = 4 ∧ m.dst = 2 ∧ m.capture = ' ' ∧
      sqAt b 4 = 'k' ∧ sqAt b 3 = ' ' ∧ sqAt b 2 = ' ' ∧ sqAt b 0 = 'r' ∧
      b.bqueen = true
  | .promotionQueen | .promotionRook | .promotionBishop | .promotionKnight =>
      (if b.white then sqAt b m.src = 'P' ∧ 8 ≤ m.src ∧ m.src ≤ 15 ∧ m.dst < 8
       else sqAt b m.src = 'p' ∧ 48 ≤ m.src ∧ m.src ≤ 55 ∧ 56 ≤ m.dst) ∧
      (if b.white then sqAt b m.dst ∈ [' ', 'n', 'b', 'r', 'q']
       else sqAt b m.dst ∈ [' ', 'N', 'B', 'R', 'Q']) ∧
      m.capture = sqAt b m.dst
  | .wEnPassant =>
      b.white = true ∧ sqAt b m.src = 'P' ∧ sqAt b m.dst = ' ' ∧
      sqAt b (m.dst + 8) = 'p' ∧ m.capture = 'p' ∧
      24 ≤ m.src ∧ m.src ≤ 31 ∧ 16 ≤ m.dst ∧ m.dst ≤ 23 ∧
      (m.dst = m.src - 7 ∨ m.dst = m.src - 9)
  | .bEnPassant =>
      b.white = false ∧ sqAt b m.src = 'p' ∧ sqAt b m.dst = ' ' ∧
      sqAt b (m.dst - 8) = 'P' ∧ m.capture = 'P' ∧
      32 ≤ m.src ∧ m.src ≤ 39 ∧ 40 ≤ m.dst ∧ m.dst ≤ 47 ∧
      (m.dst = m.src + 7 ∨ m.dst = m.src + 9)

/-- Board well-formedness maintained by thc: 64 squares and at most one
king of each color (thc validates king counts at setup). -/
def WF (b : Board) : Prop :=
  b.squares.length = 64 ∧
  (∀ i, i < 64 → ∀ j, j < 64 → sqAt b i = 'K' → sqAt b j = 'K' → i = j) ∧
  (∀ i, i < 64 → ∀ j, j < 64 → sqAt b i = 'k' → sqAt b j = 'k' → i = j)

/-- Board left behind by zobristHash64Update: for double pawn pushes the
function pushes the move, reads the groomed en-passant target and pops the
move back (hashing.cpp lines 65-69); for every other move it never touches
the board. -/
def zobristUpdateBoardEffect (cr : Board) (m : Move) : Board :=
  if m.special = .wPawn2Squares ∨ m.special = .bPawn2Squares then
    PopMove (PushMove cr m) m
  else cr

/-- Legality of an operation sequence: every pushed move satisfies MoveOK
on the board it is pushed on (as the moves produced by thc's legal move
generation do). -/
def LegalSeq : WalkState → List WalkOp → Prop
  | _, [] => True
  | s, op :: rest =>
      (match op with
       | .pushOp m => MoveOK s.cr m
       | .popOp => True) ∧ LegalSeq (walkStep s op) rest

end Montezuma

namespace Montezuma

/-- Auxiliary list lemma: reading a freshly written index. -/
theorem getD_set_self (l : List Char) (i : Nat) (h : i < l.length) (a d : Char) :
    (l.set i a).getD i d = a := by
  simp [List.getD, List.getElem?_set_self, h]

/-- Auxiliary list lemma: reading an untouched index. -/
theorem getD_set_ne (l : List Char) {i j : Nat} (h : i ≠ j) (a d : Char) :
    (l.set i a).getD j d = l.getD j d := by
  simp [List.getD, List.getElem?_set, h]

/-- Auxiliary list lemma: writing back the value already present. -/
theorem set_getD_self (l : List Char) (i : Nat) (h : i < l.length) (d : Char) :
    l.set i (l.getD i d) = l := by
  have h2 : l.getD i d = l[i] := by simp [List.getD, List.getElem?_eq_getElem h]
  rw [h2]
  apply List.ext_getElem
  · simp
  · intro n h1 h2
    rcases eq_or_ne i n with rfl | hne
    · simp
    · rw [List.getElem_set_ne hne]

/-- Auxiliary list lemma: conditional form of reading after a write. -/
theorem getD_set (l : List Char) (i n : Nat) (a d : Char) :
    (l.set i a).getD n d = if i = n ∧ i < l.length then a else l.getD n d := by
  rcases eq_or_ne i n with rfl | hne
  · by_cases h : i < l.length
    · rw [getD_set_self l i h, if_pos ⟨rfl, h⟩]
    · rw [if_neg (by tauto)]
      rw [List.set_eq_of_length_le (by omega)]
  · rw [getD_set_ne l hne, if_neg (by tauto)]

/-- Auxiliary list lemma: extensionality via getD. -/
theorem list_ext_getD (l1 l2 : List Char) (hl : l1.length = l2.length)
    (h : ∀ n, n < l1.length → l1.getD n ' ' = l2.getD n ' ') : l1 = l2 := by
  apply List.ext_getElem hl
  intro n h1 h2
  have := h n h1
  rwa [List.getD_eq_getElem l1 ' ' h1, List.getD_eq_getElem l2 ' ' h2] at this

/-- DETAIL_CASTLING only touches the castling flags: squares unchanged. -/
theorem clearCastlingFlags_squares (b : Board) (s : Nat) :
    (clearCastlingFlags b s).squares = b.squares := by
  unfold clearCastlingFlags; split_ifs <;> rfl

/-- DETAIL_CASTLING only touches the castling flags: side to move unchanged. -/
theorem clearCastlingFlags_white (b : Board) (s : Nat) :
    (clearCastlingFlags b s).white = b.white := by
  unfold clearCastlingFlags; split_ifs <;> rfl

/-- DETAIL_CASTLING only touches the castling flags: stack unchanged. -/
theorem clearCastlingFlags_detailStack (b : Board) (s : Nat) :
    (clearCastlingFlags b s).detailStack = b.detailStack := by
  unfold clearCastlingFlags; split_ifs <;> rfl

/-- Auxiliary board lemma: a rebuilt board equals the original when the
squares and side to move agree. -/
theorem board_mk_eq_self (b : Board) (X : List Char) (w : Bool) (hww : w = b.white)
    (h : X = b.squares) :
    ({ squares := X, white := w, ep := b.ep, wkingSq := b.wkingSq,
       bkingSq := b.bkingSq, wking := b.wking, wqueen := b.wqueen,
       bking := b.bking, bqueen := b.bqueen, detailStack := b.detailStack } : Board) = b := by
  rw [h, hww]

/-- PopMove undoes PushMove: thc restores the DETAIL fields from the stack
and the squares from the capture field and the special tag, so a pushed
move satisfying MoveOK pops back to the exact original board. -/
theorem PopMove_PushMove (b : Board) (m : Move)
    (hlen : b.squares.length = 64) (hok : MoveOK b m) :
    PopMove (PushMove b m) m = b := by
  obtain ⟨hsrc, hdst, hne, hrest⟩ := hok
  cases hs : m.special <;> rw [hs] at hrest <;> dsimp only at hrest
  case notSpecial =>
    obtain ⟨-, -, hcap⟩ := hrest
    simp only [PushMove, PopMove, hs, clearCastlingFlags_squares, clearCastlingFlags_white,
      clearCastlingFlags_detailStack, restoreDetail, detailOf, sqAt, List.headD_cons,
      List.tail_cons, Bool.not_not, apply_ite, ite_self]
    refine board_mk_eq_self _ _ _ rfl (list_ext_getD _ _ (by simp) ?_)
    intro n hn
    simp only [getD_set, List.length_set, hlen]
    split_ifs <;> simp_all [sqAt]
  case kingMove =>
    obtain ⟨-, -, hcap⟩ := hrest
    simp only [PushMove, PopMove, hs, clearCastlingFlags_squares, clearCastlingFlags_white,
      clearCastlingFlags_detailStack, restoreDetail, detailOf, sqAt, List.headD_cons,
      List.tail_cons, Bool.not_not, apply_ite, ite_self]
    refine board_mk_eq_self _ _ _ rfl (list_ext_getD _ _ (by simp) ?_)
    intro n hn
    simp only [getD_set, List.length_set, hlen]
    split_ifs <;> simp_all [sqAt]
  case wPawn2Squares =>
    obtain ⟨-, hp, ht, hcap, -, -, -⟩ := hrest
    simp only [PushMove, PopMove, hs, clearCastlingFlags_squares, clearCastlingFlags_white,
      clearCastlingFlags_detailStack, restoreDetail, detailOf, sqAt, List.headD_cons,
      List.tail_cons, Bool.not_not, apply_ite, ite_self]
    refine board_mk_eq_self _ _ _ rfl (list_ext_getD _ _ (by simp) ?_)
    intro n hn
    simp only [getD_set, List.length_set, hlen]
    split_ifs <;> simp_all [sqAt]
  case bPawn2Squares =>
    obtain ⟨-, hp, ht, hcap, -, -, -⟩ := hrest
    simp only [PushMove, PopMove, hs, clearCastlingFlags_squares, clearCastlingFlags_white,
      clearCastlingFlags_detailStack, restoreDetail, detailOf, sqAt, List.headD_cons,
      List.tail_cons, Bool.not_not, apply_ite, ite_self]
    refine board_mk_eq_self _ _ _ rfl (list_ext_getD _ _ (by simp) ?_)
    intro n hn
    simp only [getD_set, List.length_set, hlen]
    split_ifs <;> simp_all [sqAt]
  case wkCastling =>
    obtain ⟨-, -, -, -, h60, h61, h62, h63, -⟩ := hrest
    simp only [PushMove, PopMove, hs, clearCastlingFlags_squares, clearCastlingFlags_white,
      clearCastlingFlags_detailStack, restoreDetail, detailOf, sqAt, List.headD_cons,
      List.tail_cons, Bool.not_not, apply_ite, ite_self]
    refine board_mk_eq_self _ _ _ rfl (list_ext_getD _ _ (by simp) ?_)
    intro n hn
    simp only [getD_set, List.length_set, hlen]
    split_ifs <;> simp_all [sqAt]
  case wqCastling =>
    obtain ⟨-, -, -, -, h60, h59, h58, h56, -⟩ := hrest
    simp only [PushMove, PopMove, hs, clearCastlingFlags_squares, clearCastlingFlags_white,
      clearCastlingFlags_detailStack, restoreDetail, detailOf, sqAt, List.headD_cons,
      List.tail_cons, Bool.not_not, apply_ite, ite_self]
    refine board_mk_eq_self _ _ _ rfl (list_ext_getD _ _ (by simp) ?_)
    intro n hn
    simp only [getD_set, List.length_set, hlen]
    split_ifs <;> simp_all [sqAt]
  case bkCastling =>
    obtain ⟨-, -, -, -, h4, h5, h6, h7, -⟩ := hrest
    simp only [PushMove, PopMove, hs, clearCastlingFlags_squares, clearCastlingFlags_white,
      clearCastlingFlags_detailStack, restoreDetail, detailOf, sqAt, List.headD_cons,
      List.tail_cons, Bool.not_not, apply_ite, ite_self]
    refine board_mk_eq_self _ _ _ rfl (list_ext_getD _ _ (by simp) ?_)
    intro n hn
    simp only [getD_set, List.length_set, hlen]
    split_ifs <;> simp_all [sqAt]
  case bqCastling =>
    obtain ⟨-, -, -, -, h4, h3, h2, h0, -⟩ := hrest
    simp only [PushMove, PopMove, hs, clearCastlingFlags_squares, clearCastlingFlags_white,
      clearCastlingFlags_detailStack, restoreDetail, detailOf, sqAt, List.headD_cons,
      List.tail_cons, Bool.not_not, apply_ite, ite_self]
    refine board_mk_eq_self _ _ _ rfl (list_ext_getD _ _ (by simp) ?_)
    intro n hn
    simp only [getD_set, List.length_set, hlen]
    split_ifs <;> simp_all [sqAt]
  case promotionQueen =>
    obtain ⟨hgeo, -, hcap⟩ := hrest
    simp only [PushMove, PopMove, hs, clearCastlingFlags_squares, clearCastlingFlags_white,
      clearCastlingFlags_detailStack, restoreDetail, detailOf, sqAt, List.headD_cons,
      List.tail_cons, Bool.not_not, apply_ite, ite_self]
    refine board_mk_eq_self _ _ _ rfl (list_ext_getD _ _ (by simp [apply_ite, ite_self]) ?_)
    intro n hn
    split_ifs <;> simp only [getD_set, List.length_set, hlen] <;>
      split_ifs <;> simp_all [sqAt]
  case promotionRook =>
    obtain ⟨hgeo, -, hcap⟩ := hrest
    simp only [PushMove, PopMove, hs, clearCastlingFlags_squares, clearCastlingFlags_white,
      clearCastlingFlags_detailStack, restoreDetail, detailOf, sqAt, List.headD_cons,
      List.tail_cons, Bool.not_not, apply_ite, ite_self]
    refine board_mk_eq_self _ _ _ rfl (list_ext_getD _ _ (by simp [apply_ite, ite_self]) ?_)
    intro n hn
    split_ifs <;> simp only [getD_set, List.length_set, hlen] <;>
      split_ifs <;> simp_all [sqAt]
  case promotionBishop =>
    obtain ⟨hgeo, -, hcap⟩ := hrest
    simp only [PushMove, PopMove, hs, clearCastlingFlags_squares, clearCastlingFlags_white,
      clearCastlingFlags_detailStack, restoreDetail, detailOf, sqAt, List.headD_cons,
      List.tail_cons, Bool.not_not, apply_ite, ite_self]
    refine board_mk_eq_self _ _ _ rfl (list_ext_getD _ _ (by simp [apply_ite, ite_self]) ?_)
    intro n hn
    split_ifs <;> simp only [getD_set, List.length_set, hlen] <;>
      split_ifs <;> simp_all [sqAt]
  case promotionKnight =>
    obtain ⟨hgeo, -, hcap⟩ := hrest
    simp only [PushMove, PopMove, hs, clearCastlingFlags_squares, clearCastlingFlags_white,
      clearCastlingFlags_detailStack, restoreDetail, detailOf, sqAt, List.headD_cons,
      List.tail_cons, Bool.not_not, apply_ite, ite_self]
    refine board_mk_eq_self _ _ _ rfl (list_ext_getD _ _ (by simp [apply_ite, ite_self]) ?_)
    intro n hn
    split_ifs <;> simp only [getD_set, List.length_set, hlen] <;>
      split_ifs <;> simp_all [sqAt]
  case wEnPassant =>
    obtain ⟨-, hp, ht, hep, -, h24, h31, h16, h23, hofs⟩ := hrest
    simp only [PushMove, PopMove, hs, clearCastlingFlags_squares, clearCastlingFlags_white,
      clearCastlingFlags_detailStack, restoreDetail, detailOf, sqAt, List.headD_cons,
      List.tail_cons, Bool.not_not, apply_ite, ite_self]
    refine board_mk_eq_self _ _ _ rfl (list_ext_getD _ _ (by simp) ?_)
    intro n hn
    simp only [getD_set, List.length_set, hlen]
    split_ifs <;> simp_all [sqAt] <;> omega
  case bEnPassant =>
    obtain ⟨-, hp, ht, hep, -, h32, h39, h40, h47, hofs⟩ := hrest
    simp only [PushMove, PopMove, hs, clearCastlingFlags_squares, clearCastlingFlags_white,
      clearCastlingFlags_detailStack, restoreDetail, detailOf, sqAt, List.headD_cons,
      List.tail_cons, Bool.not_not, apply_ite, ite_self]
    refine board_mk_eq_self _ _ _ rfl (list_ext_getD _ _ (by simp) ?_)
    intro n hn
    simp only [getD_set, List.length_set, hlen]
    split_ifs <;> simp_all [sqAt] <;> omega

/-- C2 counterexample: a slot whose key matches the current hash and whose
repetition count is 2, but whose stored depth 1 is below the requested
depth 2, is reported as a miss by probeHash, not as a repetition draw. -/
theorem C2_probe_repetition_needs_depth_counterexample :
    (probeHash 5 { key := 5, depth := 1, flag := .EXACT, score := 7,
                   bestMove := { src := 0, dst := 0, capture := ' ', special := .notSpecial },
                   repetitionCount := 2 } 2 (-10) 10).1 = false := by
  decide

/-- C2 (amended): whenever the slot's key equals the current hash, the
stored depth is at least the requested depth, and the stored repetition
count is at least 2, probeHash hits with score 0 and rewrites the entry
to an exact bound with score 0. -/
theorem C2_probe_repetition_draw (currentHash : Nat) (entry : hashEntry)
    (depth alpha beta : Int)
    (hkey : entry.key = currentHash) (hdepth : entry.depth ≥ depth)
    (hrep : entry.repetitionCount ≥ 2) :
    probeHash currentHash entry depth alpha beta =
      (true, 0, { entry with score := 0, flag := .EXACT }) := by
  simp [probeHash, hkey, hdepth, hrep]

/-- C2 witness: a concrete repetition-draw hit. -/
theorem C2_probe_repetition_draw_witness :
    probeHash 5 { key := 5, depth := 3, flag := .BETA, score := 7,
                  bestMove := { src := 0, dst := 0, capture := ' ', special := .notSpecial },
                  repetitionCount := 2 } 2 (-10) 10 =
      (true, 0, { key := 5, depth := 3, flag := .EXACT, score := 0,
                  bestMove := { src := 0, dst := 0, capture := ' ', special := .notSpecial },
                  repetitionCount := 2 }) := by
  have h := C2_probe_repetition_draw 5
    { key := 5, depth := 3, flag := .BETA, score := 7,
      bestMove := { src := 0, dst := 0, capture := ' ', special := .notSpecial },
      repetitionCount := 2 } 2 (-10) 10 rfl (by decide) (by decide)
  simpa using h

/-- C3: the code bug.  With black to move on a non-draw, non-terminal
position, evaluate returns -4*M + R, negating only the material term,
whereas the specification requires the whole sum 4*M + R to be negated:
at material 3 and positional 5 the code yields -7, the spec -17. -/
theorem C3_evaluate_black_sign_bug :
    evaluate false false .NOT_TERMINAL 3 5 = -7 ∧
    -(4 * (3 : Int) + 5) = -17 ∧ (-7 : Int) ≠ -17 := by
  refine ⟨by decide, by decide, by decide⟩

/-- C7 counterexample: the negated child score 99900 has
MATE - |s| = 100, which the claim's band (MATE - |s| ≤ 100) includes,
yet the code's strict comparison leaves it unchanged instead of
decrementing its magnitude. -/
theorem C7_mate_band_boundary_counterexample :
    mateScoreCorrection 99900 = 99900 ∧
    MATE_SCORE - |(99900 : Int)| ≤ 100 := by
  refine ⟨by decide, by decide⟩

/-- C7 (amended): the band is strict, MATE - |s| < 100.  Inside the band
the score's magnitude is decremented by exactly one with the sign
preserved; outside the band the score is passed up unchanged. -/
theorem C7_mate_score_correction (s : Int) :
    (MATE_SCORE - |s| < 100 →
      |mateScoreCorrection s| = |s| - 1 ∧
      (0 < s → 0 < mateScoreCorrection s) ∧
      (s < 0 → mateScoreCorrection s < 0)) ∧
    (100 ≤ MATE_SCORE - |s| → mateScoreCorrection s = s) := by
  constructor
  · intro hband
    have hs : (99900 : Int) < |s| := by
      have := hband
      simp only [MATE_SCORE] at this
      omega
    rcases le_or_lt s 0 with hneg | hpos
    · have hslt : s < 0 := by
        rcases lt_or_eq_of_le hneg with h | h
        · exact h
        · exfalso; rw [h] at hs; simp at hs
      have habs : |s| = -s := abs_of_neg hslt
      have hcorr : mateScoreCorrection s = s + 1 := by
        simp only [mateScoreCorrection, if_pos hband]
        rw [if_neg (by omega)]
      refine ⟨?_, ?_, ?_⟩
      · rw [hcorr, abs_of_neg (by omega), habs]; ring
      · intro h; omega
      · intro _; rw [hcorr]; omega
    · have habs : |s| = s := abs_of_pos hpos
      have hcorr : mateScoreCorrection s = s - 1 := by
        simp only [mateScoreCorrection, if_pos hband]
        rw [if_pos (by omega)]
      refine ⟨?_, ?_, ?_⟩
      · rw [hcorr, abs_of_pos (by omega), habs]
      · intro _; rw [hcorr]; omega
      · intro h; omega
  · intro hout
    simp only [mateScoreCorrection]
    rw [if_neg (by omega)]

/-- C7 witness: inside the band 99950 becomes 99949; outside it 500 is
unchanged. -/
theorem C7_mate_score_correction_witness :
    |mateScoreCorrection 99950| = |(99950 : Int)| - 1 ∧
    mateScoreCorrection 500 = 500 := by
  exact ⟨((C7_mate_score_correction 99950).1 (by decide)).1,
         (C7_mate_score_correction 500).2 (by decide)⟩

/-- C8 counterexample: a book whose single entry encodes the promotion
a7a8 to a queen makes getMove return the six-character string a7a8=q,
whose fifth character is an equals sign, not a promotion piece from
q, r, b, n as the claim requires. -/
theorem C8_promotion_equals_sign_counterexample :
    getMove [{ key := 1, move := 14412, weight := 0, learn := 0 }] (endianSwapU64 1) =
      some "a7a8=q" ∧
    "a7a8=q".toList.getD 4 ' ' = '=' ∧
    ('=' ≠ 'q' ∧ '=' ≠ 'r' ∧ '=' ≠ 'b' ∧ '=' ≠ 'n') := by
  refine ⟨by decide, by decide, by decide⟩

/-- Auxiliary: the head of a filtered list is the first match. -/
theorem head?_filter_eq_find? {α : Type} (p : α → Bool) (L : List α) :
    (L.filter p).head? = L.find? p := by
  induction L with
  | nil => rfl
  | cons a t ih =>
      by_cases h : p a <;> simp [List.filter_cons, List.find?_cons, h, ih]

/-- C8 (amended): lookup is a linear scan collecting every entry whose
byte-swapped key equals the hash; when no entry matches getMove returns
nothing; otherwise the first match's byte-swapped 16-bit move field is
bit-unpacked into from-file, from-rank, to-file and to-rank characters
and, when the promotion bits are nonzero, an equals sign followed by
exactly one promotion piece character is appended. -/
theorem C8_getMove_spec (L : List polyBookEntry) (hash : Nat) :
    ((listMoves L hash).2 = L.filter (fun x => endianSwapU64 x.key == hash)) ∧
    ((∀ e ∈ L, endianSwapU64 e.key ≠ hash) → getMove L hash = none) ∧
    (∀ e, L.find? (fun x => endianSwapU64 x.key == hash) = some e →
      getMove L hash =
        some (String.mk
          ([ Char.ofNat (((endianSwapU16 e.move >>> 6) &&& 7) + 'a'.toNat),
             Char.ofNat (((endianSwapU16 e.move >>> 9) &&& 7) + 1 + '0'.toNat),
             Char.ofNat ((endianSwapU16 e.move &&& 7) + 'a'.toNat),
             Char.ofNat (((endianSwapU16 e.move >>> 3) &&& 7) + 1 + '0'.toNat) ] ++
           (if endianSwapU16 e.move >>> 12 ≠ 0 then
              ['=', promotionPieces.getD (endianSwapU16 e.move >>> 12) '?']
            else [])))) := by
  refine ⟨rfl, ?_, ?_⟩
  · intro hfind
    have hfilter : L.filter (fun entry => endianSwapU64 entry.key == hash) = [] := by
      rw [List.filter_eq_nil_iff]
      intro e he
      simpa using hfind e he
    simp [getMove, listMoves, hfilter]
  · intro e hfind
    have hhead : (L.filter (fun x => endianSwapU64 x.key == hash)).head? = some e := by
      rw [head?_filter_eq_find?]; exact hfind
    obtain ⟨t, ht⟩ : ∃ t, L.filter (fun x => endianSwapU64 x.key == hash) = e :: t := by
      cases hfl : L.filter (fun x => endianSwapU64 x.key == hash) with
      | nil => rw [hfl] at hhead; cases hhead
      | cons a t =>
          rw [hfl] at hhead
          simp only [List.head?_cons, Option.some.injEq] at hhead
          exact ⟨t, by rw [hhead]⟩
    simp only [getMove, listMoves, ht, List.isEmpty_cons, Bool.not_false, if_true,
      List.headD_cons]
    split <;> simp

/-- C8 witness: a miss on the empty book, and a hit on a one-entry book
whose move field decodes to e2e4 (no promotion bits). -/
theorem C8_getMove_spec_witness :
    getMove [] 0 = none ∧
    getMove [{ key := 2, move := 7171, weight := 0, learn := 0 }] (endianSwapU64 2) =
      some "e2e4" := by
  constructor
  · exact (C8_getMove_spec [] 0).2.1 (by intro e he; cases he)
  · have h := (C8_getMove_spec [{ key := 2, move := 7171, weight := 0, learn := 0 }]
      (endianSwapU64 2)).2.2 { key := 2, move := 7171, weight := 0, learn := 0 } (by decide)
    simpa using h

/-- C9: the code bug.  A position command arriving before the first uci or
ucinewgame is handled with numPositions_ still 0, so the cache access
hash % numPositions_ divides by zero, contradicting the claim that every
such access sees a nonzero divisor.  After a uci handshake the divisor is
the nonzero table size. -/
theorem C9_position_before_uci_divides_by_zero :
    (protocolRun []).numPositions = 0 ∧
    0 ∈ updatePositionDivisors (protocolRun []) 0 ∧
    (protocolRun [UciCommand.uci]).numPositions = 2097152 ∧
    ∀ d ∈ updatePositionDivisors (protocolRun [UciCommand.uci]) 0, d ≠ 0 := by
  refine ⟨rfl, by decide, rfl, by decide⟩

/-- Auxiliary XOR lemma: left commutation. -/
theorem nat_xor_left_comm (a b c : Nat) : a ^^^ (b ^^^ c) = b ^^^ (a ^^^ c) := by
  rw [← Nat.xor_assoc, Nat.xor_comm a b, Nat.xor_assoc]

/-- Auxiliary XOR lemma: cancellation of a repeated atom. -/
theorem nat_xor_self_left (a b : Nat) : a ^^^ (a ^^^ b) = b := by
  rw [← Nat.xor_assoc, Nat.xor_self, Nat.zero_xor]

/-- Auxiliary XOR lemma: pull a conditional XOR out of an if with identity
else-branch. -/
theorem xor_ite_zero_pull (c : Prop) [Decidable c] (x a : Nat) :
    (if c then x ^^^ a else x) = x ^^^ (if c then a else 0) := by
  split <;> simp

/-- Auxiliary XOR lemma: pull a common XOR operand out of both branches. -/
theorem xor_ite_pull (c : Prop) [Decidable c] (x a b : Nat) :
    (if c then x ^^^ a else x ^^^ b) = x ^^^ (if c then a else b) := by
  split <;> rfl

/-- The incremental update XORs a hash-independent mask into its hash
argument: the board and move determine the mask, and the hash flows
through every branch unchanged otherwise. -/
theorem zobristHash64Update_xor (h : Nat) (cr : Board) (m : Move) :
    zobristHash64Update h cr m = h ^^^ zobristHash64Update 0 cr m := by
  cases hs : m.special <;>
    simp only [zobristHash64Update, hs, Nat.xor_assoc, xor_ite_zero_pull, xor_ite_pull,
      Nat.zero_xor, Nat.xor_zero]

/-- C5 counterexample: update(update(h, P, M), P_after_M, M) differs from h
at P = startBoard, M = g1f3, h = 0. -/
theorem C5_update_on_postmove_board_counterexample :
    zobristHash64Update (zobristHash64Update 0 startBoard ng1f3)
      (PushMove startBoard ng1f3) ng1f3 ≠ 0 := by
  decide

/-- C5 (amended): the engine applies the second update after PopMove, on
the pre-move board; on the same board the update is an involution,
update(update(h, P, M), P, M) = h, for every hash, board and move. -/
theorem C5_update_involution (h : Nat) (cr : Board) (m : Move) :
    zobristHash64Update (zobristHash64Update h cr m) cr m = h := by
  rw [zobristHash64Update_xor h cr m,
      zobristHash64Update_xor (h ^^^ zobristHash64Update 0 cr m) cr m,
      Nat.xor_assoc, Nat.xor_self, Nat.xor_zero]

/-- C10: zobristHash64Update leaves the board unchanged: although for pawn
double pushes it internally calls PushMove and then PopMove to read the
groomed en-passant target, the board after the call equals the board
before it, so the returned hash is the only observable effect. -/
theorem C10_update_board_unchanged (cr : Board) (m : Move)
    (hlen : cr.squares.length = 64) (hok : MoveOK cr m) :
    zobristUpdateBoardEffect cr m = cr := by
  unfold zobristUpdateBoardEffect
  split
  · exact PopMove_PushMove cr m hlen hok
  · rfl

/-- C10 witness: the double push e2e4 from the starting position. -/
theorem C10_update_board_unchanged_witness :
    MoveOK startBoard e2e4 ∧ zobristUpdateBoardEffect startBoard e2e4 = startBoard := by
  have hok : MoveOK startBoard e2e4 := by
    unfold MoveOK
    refine ⟨by decide, by decide, by decide, ?_⟩
    exact ⟨rfl, by decide, by decide, rfl, by decide, by decide, rfl⟩
  exact ⟨hok, C10_update_board_unchanged startBoard e2e4 (by decide) hok⟩

/-- Helper: the incremental update undoes itself on the same board. -/
theorem update_self_inverse (h : Nat) (cr : Board) (m : Move) :
    zobristHash64Update (zobristHash64Update h cr m) cr m = h := by
  rw [zobristHash64Update_xor h cr m,
      zobristHash64Update_xor (h ^^^ zobristHash64Update 0 cr m) cr m,
      Nat.xor_assoc, Nat.xor_self, Nat.xor_zero]

/-- FramePreserved is reflexive. -/
theorem frame_refl (s : SearchState) : FramePreserved s s :=
  ⟨rfl, rfl, rfl, fun _ => rfl⟩

/-- FramePreserved is transitive. -/
theorem frame_trans {a b c : SearchState} (h1 : FramePreserved a b)
    (h2 : FramePreserved b c) : FramePreserved a c := by
  obtain ⟨x1, x2, x3, x4⟩ := h1
  obtain ⟨y1, y2, y3, y4⟩ := h2
  exact ⟨y1.trans x1, y2.trans x2, y3.trans x3, fun i => (y4 i).trans (x4 i)⟩

/-- probeHash never changes the repetition counter of the slot. -/
theorem probeHash_rep (h : Nat) (e : hashEntry) (d a b : Int) :
    (probeHash h e d a b).2.2.repetitionCount = e.repetitionCount := by
  simp only [probeHash]; split_ifs <;> rfl

/-- recordHash never changes the repetition counter of the slot. -/
theorem recordHash_rep (h : Nat) (e : hashEntry) (d : Int) (f : Flag) (sc : Int) (mv : Move) :
    (recordHash h e d f sc mv).1.repetitionCount = e.repetitionCount := by
  simp only [recordHash]; split <;> rfl

/-- A table probe preserves the frame components. -/
theorem probeHashS_frame (s : SearchState) (d a b : Int) :
    FramePreserved s (probeHashS s d a b).2.2 := by
  refine ⟨rfl, rfl, rfl, fun i => ?_⟩
  simp only [probeHashS, Function.update_apply]
  split
  · next hi => rw [hi, probeHash_rep]
  · rfl

/-- A table record preserves the frame components. -/
theorem recordHashS_frame (s : SearchState) (d : Int) (f : Flag) (sc : Int) (mv : Move) :
    FramePreserved s (recordHashS s d f sc mv) := by
  refine ⟨rfl, rfl, rfl, fun i => ?_⟩
  simp only [recordHashS, Function.update_apply]
  split
  · next hi => rw [hi, recordHash_rep]
  · rfl

/-- One loop iteration preserves the frame: the push, hash update and
repetition increment are exactly undone by the pop, second update and
decrement, provided the child search preserves the frame and the pushed
move pops back to the same board. -/
theorem alphaBetaStep_frame
    (recCall : Int → Int → Line → SearchState → Int × Line × SearchState)
    (hrec : ∀ a b l st, FramePreserved st (recCall a b l st).2.2)
    (mv : Move) (alpha beta : Int) (childLine : Line) (s : SearchState)
    (hpp : PopMove (PushMove s.cr mv) mv = s.cr) :
    FramePreserved s (alphaBetaStep recCall mv alpha beta childLine s).2.2 := by
  simp only [alphaBetaStep]
  obtain ⟨hc, hh, hn, hrep⟩ := hrec (-beta) (-alpha) childLine
    (incrementRepetition
      { cr := PushMove s.cr mv, currentHash := zobristHash64Update s.currentHash s.cr mv,
        hashTable := s.hashTable, numPositions := s.numPositions,
        tableEntries := s.tableEntries, evaluatedPositions := s.evaluatedPositions,
        usingPreviousLine := s.usingPreviousLine, globalPvLine := s.globalPvLine })
  set S3 := incrementRepetition
      { cr := PushMove s.cr mv, currentHash := zobristHash64Update s.currentHash s.cr mv,
        hashTable := s.hashTable, numPositions := s.numPositions,
        tableEntries := s.tableEntries, evaluatedPositions := s.evaluatedPositions,
        usingPreviousLine := s.usingPreviousLine, globalPvLine := s.globalPvLine } with hS3
  set R := (recCall (-beta) (-alpha) childLine S3).2.2 with hR
  have hRcr : R.cr = PushMove s.cr mv := hc
  have hRhash : R.currentHash = zobristHash64Update s.currentHash s.cr mv := hh
  have hRnP : R.numPositions = s.numPositions := hn
  have hdcr : (decrementRepetition R).cr = R.cr := rfl
  have hdhash : (decrementRepetition R).currentHash = R.currentHash := rfl
  refine ⟨?_, ?_, ?_, fun i => ?_⟩
  · show PopMove (decrementRepetition R).cr mv = s.cr
    rw [hdcr, hRcr, hpp]
  · show zobristHash64Update (decrementRepetition R).currentHash
      (PopMove (decrementRepetition R).cr mv) mv = s.currentHash
    rw [hdcr, hRcr, hpp, hdhash, hRhash, update_self_inverse]
  · show (decrementRepetition R).numPositions = s.numPositions
    rw [show (decrementRepetition R).numPositions = R.numPositions from rfl, hRnP]
  · show ((decrementRepetition R).hashTable i).repetitionCount =
      (s.hashTable i).repetitionCount
    simp only [decrementRepetition, Function.update_apply, hRhash, hRnP]
    have hrepS3 : ∀ j, (S3.hashTable j).repetitionCount =
        if j = zobristHash64Update s.currentHash s.cr mv % s.numPositions then
          (s.hashTable j).repetitionCount + 1
        else (s.hashTable j).repetitionCount := by
      intro j
      rw [hS3]
      simp only [incrementRepetition, Function.update_apply]
      split
      · next hj => subst hj; simp
      · rfl
    split
    · next hi =>
        rw [hi]
        have h1 := hrep (zobristHash64Update s.currentHash s.cr mv % s.numPositions)
        rw [h1, hrepS3]
        simp
    · exact (hrep i).trans ((hrepS3 i).trans (by simp_all))



/-- A found index is within the list. -/
theorem findIdxQ_lt_length {α : Type} (l : List α) (p : α → Bool) (i : Nat)
    (h : l.findIdx? p = some i) : i < l.length := by
  induction l generalizing i with
  | nil => simp [List.findIdx?] at h
  | cons a t ih =>
      rw [List.findIdx?_cons] at h
      by_cases hp : p a
      · simp [hp] at h
        simp [← h]
      · simp [hp] at h
        obtain ⟨j, hj, rfl⟩ := h
        have := ih j hj
        simp
        omega

/-- An in-bounds getD is a member. -/
theorem getD_mem {α : Type} (l : List α) (i : Nat) (d : α) (h : i < l.length) :
    l.getD i d ∈ l := by
  rw [List.getD_eq_getElem l d h]
  exact List.getElem_mem h

/-- Move ordering only permutes the legal move list. -/
theorem swapPvToFront_mem (l : List Move) (pv mv : Move)
    (h : mv ∈ swapPvToFront l pv) : mv ∈ l := by
  unfold swapPvToFront at h
  cases hf : l.findIdx? (fun m => TerseOut m == TerseOut pv) with
  | none => rw [hf] at h; exact h
  | some i =>
      rw [hf] at h
      have hi : i < l.length := findIdxQ_lt_length l _ i hf
      rcases List.mem_or_eq_of_mem_set h with h2 | rfl
      · rcases List.mem_or_eq_of_mem_set h2 with h3 | rfl
        · exact h3
        · exact getD_mem l i defaultMove hi
      · exact getD_mem l 0 defaultMove (by omega)

/-- The move loop preserves the frame components. -/
theorem alphaBetaLoop_frame
    (recCall : Int → Int → Line → SearchState → Int × Line × SearchState) (depth : Int)
    (hrec : ∀ a b l st, FramePreserved st (recCall a b l st).2.2) :
    ∀ (moves : List Move) (alpha beta : Int) (pvLine childLine : Line)
      (bestMove : Move) (flag : Flag) (s : SearchState),
      (∀ mv ∈ moves, PopMove (PushMove s.cr mv) mv = s.cr) →
      FramePreserved s
        (alphaBetaLoop recCall depth moves alpha beta pvLine childLine bestMove flag s).2.2 := by
  intro moves
  induction moves with
  | nil =>
      intro alpha beta pvLine childLine bestMove flag s _
      simp only [alphaBetaLoop]
      exact recordHashS_frame s depth flag alpha bestMove
  | cons mv rest ih =>
      intro alpha beta pvLine childLine bestMove flag s hmv
      have hstep := alphaBetaStep_frame recCall hrec mv alpha beta childLine s
        (hmv mv (List.mem_cons_self mv rest))
      have hmvrest : ∀ m ∈ rest,
          PopMove (PushMove (alphaBetaStep recCall mv alpha beta childLine s).2.2.cr m) m =
            (alphaBetaStep recCall mv alpha beta childLine s).2.2.cr := by
        intro m hm
        rw [hstep.1]
        exact hmv m (List.mem_cons_of_mem mv hm)
      simp only [alphaBetaLoop]
      split
      · exact frame_trans hstep (recordHashS_frame _ _ _ _ _)
      · split
        · refine frame_trans ?_ (ih _ _ _ _ _ _ _ ?_)
          · exact hstep
          · intro m hm
            exact hmvrest m hm
        · exact frame_trans hstep (ih _ _ _ _ _ _ _ hmvrest)



/-- The full recursive search preserves the frame components. -/
theorem alphaBeta_frame (o : BoardPrimitives)
    (hgen : ∀ b, ∀ mv ∈ o.GenLegalMoveList b, PopMove (PushMove b mv) mv = b) :
    ∀ (depth : Nat) (alpha beta : Int) (pvIn : Line) (initialDepth : Nat) (s : SearchState),
      FramePreserved s (alphaBeta o depth alpha beta pvIn initialDepth s).2.2 := by
  intro depth
  induction depth using Nat.strong_induction_on with
  | _ depth IH =>
    intro alpha beta pvIn initialDepth s
    rw [alphaBeta]
    split
    · exact probeHashS_frame s depth alpha beta
    · next hpr =>
      dsimp only
      split
      · next hbase =>
          exact frame_trans (probeHashS_frame s depth alpha beta)
            (recordHashS_frame _ _ _ _ _)
      · next hbase =>
          have hd : depth ≠ 0 := by
            intro h0
            exact hbase (Or.inl h0)
          have hlen : (o.GenLegalMoveList (probeHashS s depth alpha beta).2.2.cr).length ≠ 0 := by
            intro h0
            exact hbase (Or.inr h0)
          have hrec : ∀ a b l st,
              FramePreserved st (alphaBeta o (depth - 1) a b l initialDepth st).2.2 := by
            intro a b l st
            exact IH (depth - 1) (by omega) a b l initialDepth st
          refine frame_trans (probeHashS_frame s depth alpha beta) ?_
          split
          · next hord =>
              refine alphaBetaLoop_frame _ _ hrec _ _ _ _ _ _ _ _ ?_
              intro mv hm
              exact hgen _ mv (swapPvToFront_mem _ _ mv hm)
          · refine alphaBetaLoop_frame _ _ hrec _ _ _ _ _ _ _ _ ?_
            intro mv hm
            exact hgen _ mv hm



/-- The PV walk preserves the frame components whenever every best move
it pushes pops back to the same board (pvWalkChk). -/
theorem retrievePvAux_frame :
    ∀ (fuel : Nat) (s : SearchState) (pvLine : Line) (hh : List Nat),
      fuel = 30 - pvLine.moveCount →
      pvWalkChk s pvLine hh = true →
      FramePreserved s (retrievePvAux s pvLine hh).2.1 := by
  intro fuel
  induction fuel using Nat.strong_induction_on with
  | _ fuel IH =>
    intro s pvLine hh hfuel hchk
    rw [retrievePvAux]
    rw [pvWalkChk] at hchk
    dsimp only
    dsimp only at hchk
    split
    · exact frame_refl s
    · next hguard =>
      rw [if_neg hguard] at hchk
      simp only [Bool.and_eq_true, decide_eq_true_eq] at hchk
      obtain ⟨hpp, hrec⟩ := hchk
      have hmc : pvLine.moveCount < 30 := by
        by_contra hge
        exact hguard (Or.inr (Or.inr (Or.inr (Or.inr (Or.inr (Or.inl (by omega)))))))
      set m := (s.hashTable (s.currentHash % s.numPositions)).bestMove with hmdef
      set S2 : SearchState :=
        { cr := PushMove s.cr m,
          currentHash := zobristHash64Update s.currentHash s.cr m,
          hashTable := s.hashTable, numPositions := s.numPositions,
          tableEntries := s.tableEntries, evaluatedPositions := s.evaluatedPositions,
          usingPreviousLine := s.usingPreviousLine, globalPvLine := s.globalPvLine } with hS2
      set PV1 : Line :=
        { moveCount := pvLine.moveCount + 1,
          moves := fun i => if i = pvLine.moveCount then m else pvLine.moves i } with hPV1
      obtain ⟨hc, hhh, hn, hrep⟩ :=
        IH (30 - (pvLine.moveCount + 1)) (by omega) S2 PV1 (s.currentHash :: hh) rfl hrec
      refine ⟨?_, ?_, ?_, fun i => ?_⟩
      · show PopMove (retrievePvAux S2 PV1 (s.currentHash :: hh)).2.1.cr m = s.cr
        rw [hc]
        exact hpp
      · show zobristHash64Update (retrievePvAux S2 PV1 (s.currentHash :: hh)).2.1.currentHash
          (PopMove (retrievePvAux S2 PV1 (s.currentHash :: hh)).2.1.cr m) m = s.currentHash
        rw [hc, hhh]
        show zobristHash64Update (zobristHash64Update s.currentHash s.cr m)
          (PopMove (PushMove s.cr m) m) m = s.currentHash
        rw [hpp, update_self_inverse]
      · show (retrievePvAux S2 PV1 (s.currentHash :: hh)).2.1.numPositions = s.numPositions
        rw [hn]
      · show ((retrievePvAux S2 PV1 (s.currentHash :: hh)).2.1.hashTable i).repetitionCount =
          (s.hashTable i).repetitionCount
        rw [hrep i]



/-- C6: after any call to alphaBeta returns, and likewise after
retrievePvLineFromTable returns, the board equals its value at entry, the
current hash equals its value at entry, and every repetition counter in
the cache equals its value at entry: every push is matched by a pop,
every hash update by a second update, and every repetition-count
increment by a decrement.  The hypotheses say that pushed moves pop back
to the same board: for alphaBeta along the legal-move generator, for the
PV walk along the stored best moves it actually pushes. -/
theorem C6_search_frame (o : BoardPrimitives)
    (hgen : ∀ b, ∀ mv ∈ o.GenLegalMoveList b, PopMove (PushMove b mv) mv = b)
    (depth : Nat) (alpha beta : Int) (pvIn : Line) (initialDepth : Nat)
    (s : SearchState) (pvR : Line)
    (hwalk : pvWalkChk s pvR [] = true) :
    ((alphaBeta o depth alpha beta pvIn initialDepth s).2.2.cr = s.cr ∧
     (alphaBeta o depth alpha beta pvIn initialDepth s).2.2.currentHash = s.currentHash ∧
     ∀ i, ((alphaBeta o depth alpha beta pvIn initialDepth s).2.2.hashTable i).repetitionCount =
       (s.hashTable i).repetitionCount) ∧
    ((retrievePvLineFromTable s pvR).2.cr = s.cr ∧
     (retrievePvLineFromTable s pvR).2.currentHash = s.currentHash ∧
     ∀ i, ((retrievePvLineFromTable s pvR).2.hashTable i).repetitionCount =
       (s.hashTable i).repetitionCount) := by
  obtain ⟨a1, a2, -, a4⟩ := alphaBeta_frame o hgen depth alpha beta pvIn initialDepth s
  obtain ⟨b1, b2, -, b4⟩ := retrievePvAux_frame (30 - pvR.moveCount) s pvR [] rfl hwalk
  exact ⟨⟨a1, a2, a4⟩, ⟨b1, b2, b4⟩⟩

/-- C6 witness: a depth-1 search and a PV retrieval on a concrete state
with an empty table restore the board, the hash and the repetition
counters. -/
theorem C6_search_frame_witness :
    ((alphaBeta trivialPrimitives 1 (-MATE_SCORE) MATE_SCORE emptyLine 1
        trivialSearchState).2.2.cr = trivialSearchState.cr ∧
     (alphaBeta trivialPrimitives 1 (-MATE_SCORE) MATE_SCORE emptyLine 1
        trivialSearchState).2.2.currentHash = trivialSearchState.currentHash ∧
     ∀ i, ((alphaBeta trivialPrimitives 1 (-MATE_SCORE) MATE_SCORE emptyLine 1
        trivialSearchState).2.2.hashTable i).repetitionCount =
       (trivialSearchState.hashTable i).repetitionCount) ∧
    ((retrievePvLineFromTable trivialSearchState emptyLine).2.cr = trivialSearchState.cr ∧
     (retrievePvLineFromTable trivialSearchState emptyLine).2.currentHash =
       trivialSearchState.currentHash ∧
     ∀ i, ((retrievePvLineFromTable trivialSearchState emptyLine).2.hashTable i).repetitionCount =
       (trivialSearchState.hashTable i).repetitionCount) := by
  have hgen : ∀ b, ∀ mv ∈ trivialPrimitives.GenLegalMoveList b,
      PopMove (PushMove b mv) mv = b := by
    intro b mv hm
    simp [trivialPrimitives] at hm
  have hwalk : pvWalkChk trivialSearchState emptyLine [] = true := by
    rw [pvWalkChk]
    rw [if_pos]
    exact Or.inl (by decide)
  exact C6_search_frame trivialPrimitives hgen 1 (-MATE_SCORE) MATE_SCORE emptyLine 1
    trivialSearchState emptyLine hwalk

/-- C4: the code bug.  Engine::inputGo emits the terse form of
globalPvLine_.moves[0] unconditionally (engine.cpp line 206).  At a root
with no legal moves the table holds the base-case entry whose best move
is invalid, so retrievePvLineFromTable leaves the PV empty, and the
emitted move is whatever stale or indeterminate content moves[0] holds -
here a stale e2e4 - with no fallback to a legal move and no bestmove 0000
path. -/
theorem C4_bestmove_no_fallback :
    (retrievePvLineFromTable mateRootState emptyLine).1.moveCount = 0 ∧
    inputGoBestmoveOutput { moveCount := 0, moves := fun _ => e2e4 } = "bestmove e2e4" ∧
    "bestmove e2e4" ≠ "bestmove 0000" := by
  refine ⟨?_, by decide, by decide⟩
  show (retrievePvAux mateRootState emptyLine []).1.moveCount = 0
  rw [retrievePvAux, if_pos]
  · rfl
  · exact Or.inr (Or.inl (by decide))

end Montezuma
